import Mathlib

/-!
Verification of the unit-normalization and precise-rounding pricing engine.

The repository contains two variants of the same engine:
* a plain-object JavaScript variant (`src/revamp/code-refactor.js`):
  `normalizeWeight`, `normalizePrice`, `preciseRound`, `createDatabase`,
  `handleCalculate`, `handleQuery`, `summaryApi`;
* a Map-based TypeScript variant (embedded in `src/README.md`):
  `DatabaseManager`, `UnitConverter`, `SummaryAPI`.

The embedding models JavaScript numbers as exact rationals (ℚ), JS
`Math.round` as Mathlib's `round` (half away from zero toward +∞ on ties,
matching `Math.round`), JS `%` on integral values as `Int.tmod` (remainder
with the sign of the dividend), and `Math.floor` of a real quotient as
`Int.floor` of the rational quotient.  Code paths that crash or produce
NaN in JavaScript (missing catalog items, unparseable numeric fields) are
modelled by `Option`, with `none` standing for the crash/NaN outcome.
String splitting with a single-character separator is modelled by a
structurally recursive split over the character list of the string, which
agrees with JavaScript `String.prototype.split` on single-character
separators.
-/

namespace Pricing

/-- An item record: `{id, name, unitPrice, unit}` from the JSDoc typedef
and the TS `Item` interface.  The `unit` field is a raw string, as in the
JavaScript variant (the TS `UnitType` narrowing is a compile-time-only
annotation). -/
structure Item where
  id : ℕ
  name : String
  unitPrice : ℚ
  unit : String
deriving DecidableEq

/-- Source `normalizeWeight(value, unit)`: `unit === "g" ? value / 1000 : value`. -/
def normalizeWeight (value : ℚ) (unit : String) : ℚ :=
  if unit = "g" then value / 1000 else value

/-- Source `normalizePrice(price, unit)`: `unit === "g" ? price * 1000 : price`. -/
def normalizePrice (price : ℚ) (unit : String) : ℚ :=
  if unit = "g" then price * 1000 else price

/-- Source `preciseRound(value)`: `cents = Math.round(value * 100)`,
`lastDigit = cents % 10` (JS remainder, sign of the dividend, hence
`Int.tmod`), then the branchy digit table; `Math.floor(cents / 10)` is the
real floor of the rational quotient. -/
def preciseRound (value : ℚ) : ℚ :=
  let cents : ℤ := round (value * 100)
  let lastDigit : ℤ := Int.tmod cents 10
  if 1 ≤ lastDigit ∧ lastDigit ≤ 2 then
    (⌊(cents : ℚ) / 10⌋ : ℚ) / 10
  else if 3 ≤ lastDigit ∧ lastDigit ≤ 4 then
    ((⌊(cents : ℚ) / 10⌋ : ℚ) + 1/2) / 10
  else if 6 ≤ lastDigit ∧ lastDigit ≤ 7 then
    ((⌊(cents : ℚ) / 10⌋ : ℚ) + 1/2) / 10
  else if 8 ≤ lastDigit ∧ lastDigit ≤ 9 then
    ((⌊(cents : ℚ) / 10⌋ : ℚ) + 1) / 10
  else
    (cents : ℚ) / 100

/-- The 19 seeded items, shared verbatim by `createDatabase` (JS) and the
`bulkAdd` call in the TS test harness. -/
def seedItems : List Item :=
  [ ⟨1, "item1", 145/100, "kg"⟩
  , ⟨2, "item2", 123/100, "kg"⟩
  , ⟨3, "item3", 235/100, "g"⟩
  , ⟨4, "item4", 456/100, "kg"⟩
  , ⟨5, "item5", 134/100, "kg"⟩
  , ⟨6, "item6", 567/100, "kg"⟩
  , ⟨7, "item7", 234/100, "g"⟩
  , ⟨8, "item8", 345/100, "kg"⟩
  , ⟨9, "item9", 91/10, "kg"⟩
  , ⟨10, "item10", 1, "g"⟩
  , ⟨11, "item11", 213/100, "g"⟩
  , ⟨12, "item12", 264/100, "kg"⟩
  , ⟨13, "item13", 285/100, "kg"⟩
  , ⟨14, "item14", 271/100, "kg"⟩
  , ⟨15, "item15", 149/100, "kg"⟩
  , ⟨16, "item16", 178/100, "g"⟩
  , ⟨17, "item17", 159/100, "kg"⟩
  , ⟨18, "item18", 355/100, "g"⟩
  , ⟨19, "item19", 405/100, "kg"⟩ ]

/-- Source `createDatabase().items`: `Object.fromEntries(items.map(item => [item.id, item]))`.
A JS object keys its properties by strings, so the keys are the decimal
renderings of the ids. -/
def databaseItems : List (String × Item) :=
  seedItems.map (fun it => (toString it.id, it))

/-- Source `database.items[id]`: property lookup by string key; `none` models the
`undefined` result for an absent key. -/
def dbFind (key : String) : Option Item :=
  (databaseItems.find? (fun p => p.1 == key)).map (fun p => p.2)

/-- Splitting a character list at every occurrence of `sep`; agrees with
JavaScript `String.prototype.split` for a single-character separator
(in particular the split of the empty string is `[""]`). -/
def splitOnChar (sep : Char) : List Char → List (List Char)
  | [] => [[]]
  | c :: rest =>
    let r := splitOnChar sep rest
    if c = sep then [] :: r
    else
      match r with
      | [] => [[c]]
      | h :: t => (c :: h) :: t

/-- Model of `s.split(sep)` for a single-character separator. -/
def jsSplit (sep : Char) (s : String) : List String :=
  (splitOnChar sep s.toList).map (fun cs => String.mk cs)

/-- Value of a list of decimal digit characters. -/
def digitsVal (l : List Char) : ℕ :=
  l.foldl (fun n c => 10 * n + (c.toNat - 48)) 0

/-- Whether every character of the list is a decimal digit. -/
def allDigits (l : List Char) : Bool :=
  l.all (fun c => c.isDigit)

/-- Model of `Number(s)` restricted to the spec's grammar of non-negative decimal
literals (`digits` or `digits "." digits`); every other input — which in
JavaScript yields `NaN` and then poisons the computation — is `none`. -/
def parseNumber (s : String) : Option ℚ :=
  match splitOnChar '.' s.toList with
  | [w] =>
    if w ≠ [] ∧ allDigits w then some (digitsVal w : ℚ) else none
  | [w, f] =>
    if w ≠ [] ∧ allDigits w ∧ f ≠ [] ∧ allDigits f then
      some ((digitsVal w : ℚ) + (digitsVal f : ℚ) / (10 : ℚ) ^ f.length)
    else none
  | _ => none

/-- Model of `parseInt(s)` on a base-10 string: value of the leading run of digits,
`none` (JS `NaN`) when there is none. -/
def parseIntJS (s : String) : Option ℕ :=
  let ds := s.toList.takeWhile (fun c => c.isDigit)
  if ds = [] then none else some (digitsVal ds)

/-- One reduction step of `handleCalculate`'s `reduce`: destructure
`[id, quantity, unit]` (extra fields are ignored by JS destructuring),
look the item up, normalize, and accumulate.  A missing item or an
unparseable quantity crashes/NaNs in JS and is `none` here. -/
def calcLine (sum : ℚ) (fields : List String) : Option ℚ :=
  match fields with
  | id :: quantity :: unit :: _ => do
    let item ← dbFind id
    let q ← parseNumber quantity
    pure (sum + normalizePrice item.unitPrice item.unit * normalizeWeight q unit)
  | _ => none

/-- Source `handleCalculate(datasString)` from the JS variant. -/
def handleCalculate (datasString : String) : Option ℚ := do
  let items := (jsSplit ';' datasString).map (fun it => jsSplit ',' it)
  let totalPrice ← items.foldlM calcLine 0
  pure (preciseRound totalPrice)

/-- One output row of `query`: `{itemId, kgPrice}`.  Both fields are JS
numbers, hence ℚ. -/
structure QueryEntry where
  itemId : ℚ
  kgPrice : ℚ
deriving DecidableEq

/-- The body of `handleQuery`'s `map`: look the item up by string key and
emit `{itemId: Number(id), kgPrice: normalizePrice(item.unitPrice, item.unit)}`. -/
def queryLine (id : String) : Option QueryEntry := do
  let item ← dbFind id
  let n ← parseNumber id
  pure ⟨n, normalizePrice item.unitPrice item.unit⟩

/-- Source `handleQuery(datasString)` from the JS variant. -/
def handleQuery (datasString : String) : Option (List QueryEntry) :=
  (jsSplit ',' datasString).mapM queryLine

/-- The `{action, datas}` envelope. -/
structure Envelope where
  action : String
  datas : String

/-- The three result shapes of `summaryApi`: a number, an array of query
rows, or `undefined` (the designed result for unrecognized actions). -/
inductive ApiResult where
  | number : ℚ → ApiResult
  | table : List QueryEntry → ApiResult
  | undef : ApiResult
deriving DecidableEq

/-- Source `summaryApi(largeData)`: the JS dispatcher.  The outer `some` level
distinguishes a returned value (including the deliberate `undefined`,
`ApiResult.undef`) from a crash inside a handler (`none`). -/
def summaryApi (largeData : Envelope) : Option ApiResult :=
  match largeData.action with
  | "calculate" => (handleCalculate largeData.datas).map ApiResult.number
  | "query" => (handleQuery largeData.datas).map ApiResult.table
  | _ => some ApiResult.undef

/-!
Specification-side view of a calculate payload: the parsed list of line
entries `(id, quantity, unit)`, used to state what `handleCalculate`
computes.  The item id is kept as the raw string key (the JS lookup key);
the quantity is the parsed number.
-/

/-- One parsed calculate entry `id,quantity,unit`. -/
structure Entry where
  idKey : String
  quantity : ℚ
  unit : String
deriving DecidableEq

/-- Parsing one `,`-split field list as a calculate entry: exactly three
fields whose quantity is a decimal literal. -/
def parseFields (fields : List String) : Option Entry :=
  match fields with
  | [a, b, c] => (parseNumber b).map (fun q => { idKey := a, quantity := q, unit := c })
  | _ => none

/-- Parsing a whole calculate payload. -/
def parseCalc (s : String) : Option (List Entry) :=
  ((jsSplit ';' s).map (fun it => jsSplit ',' it)).mapM parseFields

/-- Placeholder item for the (excluded by hypothesis) missing-id case. -/
def defaultItem : Item :=
  ⟨0, "", 0, "kg"⟩

/-- The amount one entry contributes to the total:
`normalizePrice(item.unitPrice, item.unit) * normalizeWeight(quantity, entry.unit)`. -/
def entryAmount (e : Entry) : ℚ :=
  let item := (dbFind e.idKey).getD defaultItem
  normalizePrice item.unitPrice item.unit * normalizeWeight e.quantity e.unit

/-- The left-to-right accumulated sum of entry amounts, starting at 0. -/
def specTotal (es : List Entry) : ℚ :=
  es.foldl (fun sum e => sum + entryAmount e) 0

/-- The query row the spec promises for one input id:
`{itemId: item.id, kgPrice: normalizePrice(item.unitPrice, item.unit)}` for
the item looked up from the id (junk row for the excluded missing-id case). -/
def queryEntryOf (id : String) : QueryEntry :=
  match dbFind id with
  | some item => ⟨(item.id : ℚ), normalizePrice item.unitPrice item.unit⟩
  | none => ⟨0, 0⟩

/-- Well-formedness of a calculate payload: it parses, and every entry's
item id is present in the catalog. -/
def wfCalc (s : String) : Bool :=
  match parseCalc s with
  | some es => es.all (fun e => (dbFind e.idKey).isSome)
  | none => false

/-- Well-formedness of a query payload: every id is present in the catalog. -/
def wfQuery (s : String) : Bool :=
  (jsSplit ',' s).all (fun id => (dbFind id).isSome)

/-!
Embedding of the Map-based TypeScript variant from `src/README.md`:
`DatabaseManager` (a `Map<number, Item>` filled by `bulkAdd`, i.e. repeated
`set`), and `SummaryAPI` (`calculate`, `query`, `process`), which looks
items up by `parseInt(id)`.
-/

/-- Model of `Map.set` on an insertion-ordered association list: overwrite the
existing key in place, else append. -/
def mapSet (m : List (ℕ × Item)) (k : ℕ) (v : Item) : List (ℕ × Item) :=
  match m with
  | [] => [(k, v)]
  | (k0, v0) :: rest => if k0 = k then (k, v) :: rest else (k0, v0) :: mapSet rest k v

/-- The `DatabaseManager` contents after `bulkAdd(seedItems)` (each element
added with `addItem`, i.e. `Map.set`, in input order). -/
def tsItems : List (ℕ × Item) :=
  seedItems.foldl (fun m it => mapSet m it.id it) []

/-- Source `DatabaseManager.getItem(id)`: `Map.get`, `undefined` when absent. -/
def getItem (id : ℕ) : Option Item :=
  (tsItems.find? (fun p => p.1 == id)).map (fun p => p.2)

/-- One reduction step of `SummaryAPI.calculate`'s `reduce`: as `calcLine`,
but the lookup goes through `parseInt(id)` and `getItem`. -/
def tsCalcLine (sum : ℚ) (fields : List String) : Option ℚ :=
  match fields with
  | id :: quantity :: unit :: _ => do
    let n ← parseIntJS id
    let item ← getItem n
    let q ← parseNumber quantity
    pure (sum + normalizePrice item.unitPrice item.unit * normalizeWeight q unit)
  | _ => none

/-- Source `SummaryAPI.calculate(datasString)` from the TS variant. -/
def tsCalculate (datasString : String) : Option ℚ := do
  let items := (jsSplit ';' datasString).map (fun it => jsSplit ',' it)
  let totalPrice ← items.foldlM tsCalcLine 0
  pure (preciseRound totalPrice)

/-- One row of `SummaryAPI.query`: the TS variant's three `map`s
(`parseInt`, `getItem`, row construction) fused into one per-id function;
the row is `{itemId: item.id, kgPrice: ...}` with `item.id` taken from the
looked-up item. -/
def tsQueryLine (id : String) : Option QueryEntry := do
  let n ← parseIntJS id
  let item ← getItem n
  pure ⟨(item.id : ℚ), normalizePrice item.unitPrice item.unit⟩

/-- Source `SummaryAPI.query(datasString)` from the TS variant. -/
def tsQuery (datasString : String) : Option (List QueryEntry) :=
  (jsSplit ',' datasString).mapM tsQueryLine

/-- Source `SummaryAPI.process(largeData)` from the TS variant. -/
def tsProcess (largeData : Envelope) : Option ApiResult :=
  match largeData.action with
  | "calculate" => (tsCalculate largeData.datas).map ApiResult.number
  | "query" => (tsQuery largeData.datas).map ApiResult.table
  | _ => some ApiResult.undef


/-!
Arithmetic helper lemmas about `Int.tmod` and the floor of a rational
quotient, and the two structural facts about `preciseRound` that the
claims share: every output is an integer number of cents that the
function maps to itself, and which branch produced it.
-/

lemma tmod_neg_left (a b : ℤ) : Int.tmod (-a) b = -Int.tmod a b := by
  rw [Int.tmod_def, Int.tmod_def, Int.neg_tdiv]; ring

lemma tmod_nonpos_of_nonpos {a : ℤ} (b : ℤ) (h : a ≤ 0) : Int.tmod a b ≤ 0 := by
  have h1 : (0:ℤ) ≤ -a := by omega
  have h2 := Int.tmod_nonneg b h1
  have h3 := tmod_neg_left (-a) b
  simp only [neg_neg] at h3
  omega

lemma pos_of_tmod_pos {c : ℤ} (h : 1 ≤ Int.tmod c 10) : 1 ≤ c := by
  by_contra hc
  have := tmod_nonpos_of_nonpos (a := c) 10 (by omega)
  omega

lemma floor_ten_bounds (c : ℤ) : 10 * ⌊(c : ℚ) / 10⌋ ≤ c ∧ c < 10 * ⌊(c : ℚ) / 10⌋ + 10 := by
  have h1 := Int.floor_le ((c : ℚ) / 10)
  have h2 := Int.lt_floor_add_one ((c : ℚ) / 10)
  constructor
  · have : (10 * ⌊(c : ℚ) / 10⌋ : ℚ) ≤ (c : ℚ) := by linarith
    exact_mod_cast this
  · have : (c : ℚ) < 10 * ⌊(c : ℚ) / 10⌋ + 10 := by linarith
    exact_mod_cast this

/-- Case analysis on `preciseRound`: the result is `m/100` for an integer
`m` that is either a multiple of 5 or the unrounded cents value, and whose
own last digit (in the JS remainder sense) is never in one of the four
rewriting branches. -/
lemma preciseRound_eq_cases (x : ℚ) :
    ∃ m : ℤ, preciseRound x = (m : ℚ) / 100 ∧
      (5 ∣ m ∨ m = round (x * 100)) ∧
      (Int.tmod m 10 ≤ 0 ∨ Int.tmod m 10 = 5) := by
  simp only [preciseRound]
  split_ifs with h1 h2 h3 h4
  · refine ⟨10 * ⌊((round (x * 100) : ℤ) : ℚ) / 10⌋, ?_,
      Or.inl ⟨2 * ⌊((round (x * 100) : ℤ) : ℚ) / 10⌋, by ring⟩, Or.inl ?_⟩
    · push_cast; ring
    · rw [Int.mul_tmod_right]
  · have hc : 1 ≤ round (x * 100) := pos_of_tmod_pos (by omega)
    have hq : 0 ≤ ⌊((round (x * 100) : ℤ) : ℚ) / 10⌋ := by
      apply Int.floor_nonneg.mpr
      positivity
    refine ⟨10 * ⌊((round (x * 100) : ℤ) : ℚ) / 10⌋ + 5, ?_,
      Or.inl ⟨2 * ⌊((round (x * 100) : ℤ) : ℚ) / 10⌋ + 1, by ring⟩, Or.inr ?_⟩
    · push_cast; ring
    · rw [Int.tmod_eq_emod (by omega) (by norm_num)]
      omega
  · have hc : 1 ≤ round (x * 100) := pos_of_tmod_pos (by omega)
    have hq : 0 ≤ ⌊((round (x * 100) : ℤ) : ℚ) / 10⌋ := by
      apply Int.floor_nonneg.mpr
      positivity
    refine ⟨10 * ⌊((round (x * 100) : ℤ) : ℚ) / 10⌋ + 5, ?_,
      Or.inl ⟨2 * ⌊((round (x * 100) : ℤ) : ℚ) / 10⌋ + 1, by ring⟩, Or.inr ?_⟩
    · push_cast; ring
    · rw [Int.tmod_eq_emod (by omega) (by norm_num)]
      omega
  · refine ⟨10 * (⌊((round (x * 100) : ℤ) : ℚ) / 10⌋ + 1), ?_,
      Or.inl ⟨2 * (⌊((round (x * 100) : ℤ) : ℚ) / 10⌋ + 1), by ring⟩, Or.inl ?_⟩
    · push_cast; ring
    · rw [Int.mul_tmod_right]
  · have hlt := Int.tmod_lt_of_pos (round (x * 100)) (b := 10) (by norm_num)
    exact ⟨round (x * 100), rfl, Or.inr rfl, by omega⟩

/-- Any whole-cents value whose last digit falls outside the four rewriting
branches is a fixed point of `preciseRound`. -/
lemma preciseRound_cents_fixed {m : ℤ} (h : Int.tmod m 10 ≤ 0 ∨ Int.tmod m 10 = 5) :
    preciseRound ((m : ℚ) / 100) = (m : ℚ) / 100 := by
  have hr : round (((m : ℚ) / 100) * 100) = m := by
    rw [div_mul_cancel₀ _ (by norm_num : (100:ℚ) ≠ 0), round_intCast]
  simp only [preciseRound, hr]
  split_ifs with h1 h2 h3 h4 <;> first | rfl | (exfalso; omega)

/-- C1.  For every value `v`, with `cents = round(v * 100)` and
`lastDigit = cents % 10` (JS remainder), `preciseRound v` returns
`floor(cents/10)/10` when the last digit is 1 or 2, `(floor(cents/10) + 0.5)/10`
when it is 3, 4, 6 or 7, `(floor(cents/10) + 1)/10` when it is 8 or 9, and
the unchanged `cents/100` when it is 0 or 5. -/
theorem preciseRound_table (v : ℚ) :
    (Int.tmod (round (v * 100)) 10 = 1 ∨ Int.tmod (round (v * 100)) 10 = 2 →
      preciseRound v = (⌊(round (v * 100) : ℚ) / 10⌋ : ℚ) / 10) ∧
    (Int.tmod (round (v * 100)) 10 = 3 ∨ Int.tmod (round (v * 100)) 10 = 4 ∨
        Int.tmod (round (v * 100)) 10 = 6 ∨ Int.tmod (round (v * 100)) 10 = 7 →
      preciseRound v = ((⌊(round (v * 100) : ℚ) / 10⌋ : ℚ) + 1/2) / 10) ∧
    (Int.tmod (round (v * 100)) 10 = 8 ∨ Int.tmod (round (v * 100)) 10 = 9 →
      preciseRound v = ((⌊(round (v * 100) : ℚ) / 10⌋ : ℚ) + 1) / 10) ∧
    (Int.tmod (round (v * 100)) 10 = 0 ∨ Int.tmod (round (v * 100)) 10 = 5 →
      preciseRound v = (round (v * 100) : ℚ) / 100) := by
  refine ⟨fun hd => ?_, fun hd => ?_, fun hd => ?_, fun hd => ?_⟩ <;>
    · simp only [preciseRound]
      split_ifs with h1 h2 h3 h4 <;> first | rfl | (exfalso; omega)

/-- Witness for C1 at `v = 1.23`: the last digit is 3, so the result is
`(12 + 0.5)/10 = 1.25`. -/
theorem preciseRound_table_witness :
    preciseRound (123/100 : ℚ) = 5/4 := by
  have hr : round ((123/100 : ℚ) * 100) = 123 := by norm_num [round_eq]
  have h := (preciseRound_table (123/100)).2.1 (by rw [hr]; decide)
  rw [h, hr]
  norm_num

/-- C4.  `preciseRound` is idempotent on every rational input. -/
theorem preciseRound_idem (x : ℚ) : preciseRound (preciseRound x) = preciseRound x := by
  obtain ⟨m, hm, -, hfix⟩ := preciseRound_eq_cases x
  rw [hm, preciseRound_cents_fixed hfix]

/-- C5, amended.  Whenever the rounded cents value is non-negative (in
particular on every non-negative input), `preciseRound x` is an integer
multiple of 0.05.  The unrestricted claim is false: see the
counterexample below, where a negative input ending in cent digit 3 is
returned at whole-cent (not 5-cent) resolution. -/
theorem preciseRound_nickel_of_nonneg (x : ℚ) (h : 0 ≤ round (x * 100)) :
    ∃ k : ℤ, preciseRound x = (k : ℚ) / 20 := by
  obtain ⟨m, hm, hsrc, hd⟩ := preciseRound_eq_cases x
  have h5 : 5 ∣ m := by
    rcases hsrc with h5 | rfl
    · exact h5
    · rw [Int.tmod_eq_emod h (by norm_num)] at hd
      have := Int.emod_nonneg (round (x * 100)) (b := 10) (by norm_num)
      omega
  obtain ⟨k, rfl⟩ := h5
  refine ⟨k, ?_⟩
  rw [hm]
  push_cast
  ring

/-- Witness for the amended C5 at `x = 0.1`. -/
theorem preciseRound_nickel_witness :
    0 ≤ round ((1/10 : ℚ) * 100) ∧ ∃ k : ℤ, preciseRound (1/10 : ℚ) = (k : ℚ) / 20 :=
  ⟨by norm_num [round_eq], preciseRound_nickel_of_nonneg (1/10) (by norm_num [round_eq])⟩

/-- Counterexample to C5 as stated, at `x = -0.03`: `preciseRound x = -0.03`
is not a multiple of 0.05, and its last digit `(-3) % 10 = -3` (JS
remainder) is neither 0 nor 5. -/
theorem preciseRound_nickel_counterexample :
    ¬ ((∃ k : ℤ, preciseRound (-3/100 : ℚ) = (k : ℚ) / 20) ∨
       ((Int.tmod (round ((-3/100 : ℚ) * 100)) 10 = 0 ∨
         Int.tmod (round ((-3/100 : ℚ) * 100)) 10 = 5) ∧
        preciseRound (-3/100 : ℚ) = (round ((-3/100 : ℚ) * 100) : ℚ) / 100)) := by
  have hr : round ((-3/100 : ℚ) * 100) = -3 := by norm_num [round_eq]
  have ht : Int.tmod (-3 : ℤ) 10 = -3 := by decide
  have hpr : preciseRound (-3/100 : ℚ) = -3/100 := by
    simp only [preciseRound, hr, ht]
    norm_num
  rintro (⟨k, hk⟩ | ⟨hd, -⟩)
  · rw [hpr] at hk
    have hq : (5 * k : ℚ) = -3 := by
      field_simp at hk
      linarith
    have hz : (5 * k : ℤ) = -3 := by exact_mod_cast hq
    omega
  · rw [hr, ht] at hd
    omega

/-- C9.  When `round(x * 100)` is non-positive, the JS remainder
`cents % 10` is non-positive, so none of the four table branches applies
and `preciseRound` returns the whole-cent value `cents/100` unchanged. -/
theorem preciseRound_nonpos (x : ℚ) (h : round (x * 100) ≤ 0) :
    preciseRound x = (round (x * 100) : ℚ) / 100 := by
  have hd : Int.tmod (round (x * 100)) 10 ≤ 0 := tmod_nonpos_of_nonpos 10 h
  simp only [preciseRound]
  split_ifs with h1 h2 h3 h4 <;> first | rfl | (exfalso; omega)

/-- Witness for C9 at `x = -0.07`. -/
theorem preciseRound_nonpos_witness :
    round ((-7/100 : ℚ) * 100) ≤ 0 ∧
      preciseRound (-7/100 : ℚ) = (round ((-7/100 : ℚ) * 100) : ℚ) / 100 :=
  ⟨by norm_num [round_eq], preciseRound_nonpos (-7/100) (by norm_num [round_eq])⟩

/-- C10.  For every unit string other than `"g"` — including strings
outside the `{kg, g}` enumeration — `normalizeWeight` and `normalizePrice`
return their inputs unchanged: an unrecognized unit token is silently
treated as kilograms and never causes an error. -/
theorem normalize_default_kg (v p : ℚ) (u : String) (h : u ≠ "g") :
    normalizeWeight v u = v ∧ normalizePrice p u = p := by
  simp [normalizeWeight, normalizePrice, h]

/-- Witness for C10 at the unit `"lb"`. -/
theorem normalize_default_kg_witness :
    normalizeWeight 2 ("lb") = 2 ∧ normalizePrice 3 ("lb") = 3 :=
  normalize_default_kg 2 3 ("lb") (by decide)

lemma summaryApi_other {a : String} (d : String) (h1 : a ≠ "calculate") (h2 : a ≠ "query") :
    summaryApi ⟨a, d⟩ = some ApiResult.undef := by
  simp only [summaryApi]

lemma tsProcess_other {a : String} (d : String) (h1 : a ≠ "calculate") (h2 : a ≠ "query") :
    tsProcess ⟨a, d⟩ = some ApiResult.undef := by
  simp only [tsProcess]

/-- C7.  `summaryApi` delegates to `handleCalculate` when the action is
`"calculate"`, to `handleQuery` when it is `"query"`, and for every other
action string returns the `undefined` result without raising any error. -/
theorem summaryApi_dispatch (largeData : Envelope) :
    (largeData.action = "calculate" →
      summaryApi largeData = (handleCalculate largeData.datas).map ApiResult.number) ∧
    (largeData.action = "query" →
      summaryApi largeData = (handleQuery largeData.datas).map ApiResult.table) ∧
    (largeData.action ≠ "calculate" → largeData.action ≠ "query" →
      summaryApi largeData = some ApiResult.undef) := by
  obtain ⟨a, d⟩ := largeData
  refine ⟨fun h => ?_, fun h => ?_, fun h1 h2 => ?_⟩
  · subst h; rfl
  · subst h; rfl
  · exact summaryApi_other d h1 h2

/-- Witness for C7 at the unrecognized action `"delete"`. -/
theorem summaryApi_dispatch_witness :
    summaryApi ⟨"delete", "1,2"⟩ = some ApiResult.undef :=
  (summaryApi_dispatch ⟨"delete", "1,2"⟩).2.2 (by decide) (by decide)

lemma dbFind_eq_some {key : String} {item : Item} (h : dbFind key = some item) :
    ∃ p ∈ databaseItems, p.1 = key ∧ p.2 = item := by
  unfold dbFind at h
  obtain ⟨p, hp, hmap⟩ := Option.map_eq_some'.mp h
  refine ⟨p, List.mem_of_find?_eq_some hp, ?_, hmap⟩
  have := List.find?_some hp
  simpa using this

set_option maxRecDepth 40000 in
lemma db_parseNumber : ∀ p ∈ databaseItems, parseNumber p.1 = some ((p.2.id : ℚ)) := by
  with_unfolding_all decide

set_option maxRecDepth 40000 in
lemma db_parseIntJS : ∀ p ∈ databaseItems, parseIntJS p.1 = some p.2.id := by
  with_unfolding_all decide

set_option maxRecDepth 40000 in
lemma db_getItem : ∀ p ∈ databaseItems, getItem p.2.id = some p.2 := by
  with_unfolding_all decide

lemma queryLine_eq {id : String} (h : (dbFind id).isSome = true) :
    queryLine id = some (queryEntryOf id) := by
  obtain ⟨item, hit⟩ := Option.isSome_iff_exists.mp h
  obtain ⟨p, hp, hkey, hval⟩ := dbFind_eq_some hit
  have hnum : parseNumber id = some ((item.id : ℚ)) := by
    have := db_parseNumber p hp
    rwa [hkey, hval] at this
  simp [queryLine, queryEntryOf, hit, hnum]

lemma tsQueryLine_eq {id : String} (h : (dbFind id).isSome = true) :
    tsQueryLine id = some (queryEntryOf id) := by
  obtain ⟨item, hit⟩ := Option.isSome_iff_exists.mp h
  obtain ⟨p, hp, hkey, hval⟩ := dbFind_eq_some hit
  have hint : parseIntJS id = some item.id := by
    have := db_parseIntJS p hp
    rwa [hkey, hval] at this
  have hget : getItem item.id = some item := by
    have := db_getItem p hp
    rwa [hval] at this
  simp [tsQueryLine, queryEntryOf, hit, hint, hget]

lemma mapM_queryLine (ids : List String) (h : ∀ id ∈ ids, (dbFind id).isSome = true) :
    ids.mapM queryLine = some (ids.map queryEntryOf) := by
  rw [← List.mapM'_eq_mapM]
  induction ids with
  | nil => rfl
  | cons a t ih =>
    have h1 := queryLine_eq (h a (by simp))
    have h2 := ih (fun id hid => h id (by simp [hid]))
    simp [List.mapM', h1, h2]

lemma mapM_tsQueryLine (ids : List String) (h : ∀ id ∈ ids, (dbFind id).isSome = true) :
    ids.mapM tsQueryLine = some (ids.map queryEntryOf) := by
  rw [← List.mapM'_eq_mapM]
  induction ids with
  | nil => rfl
  | cons a t ih =>
    have h1 := tsQueryLine_eq (h a (by simp))
    have h2 := ih (fun id hid => h id (by simp [hid]))
    simp [List.mapM', h1, h2]

lemma calcLine_eq {fields : List String} {e : Entry} (sum : ℚ)
    (hp : parseFields fields = some e) (hd : (dbFind e.idKey).isSome = true) :
    calcLine sum fields = some (sum + entryAmount e) := by
  rcases fields with _ | ⟨a, _ | ⟨b, _ | ⟨c, _ | ⟨x, t⟩⟩⟩⟩ <;> simp [parseFields] at hp
  obtain ⟨q, hq, he⟩ := hp
  subst he
  obtain ⟨item, hit⟩ := Option.isSome_iff_exists.mp hd
  simp only [Entry.idKey] at hit
  simp [calcLine, entryAmount, hit, hq]

lemma tsCalcLine_eq {fields : List String} {e : Entry} (sum : ℚ)
    (hp : parseFields fields = some e) (hd : (dbFind e.idKey).isSome = true) :
    tsCalcLine sum fields = some (sum + entryAmount e) := by
  rcases fields with _ | ⟨a, _ | ⟨b, _ | ⟨c, _ | ⟨x, t⟩⟩⟩⟩ <;> simp [parseFields] at hp
  obtain ⟨q, hq, he⟩ := hp
  subst he
  obtain ⟨item, hit⟩ := Option.isSome_iff_exists.mp hd
  simp only [Entry.idKey] at hit
  obtain ⟨p, hpm, hkey, hval⟩ := dbFind_eq_some hit
  have hint : parseIntJS a = some item.id := by
    have := db_parseIntJS p hpm
    rwa [hkey, hval] at this
  have hget : getItem item.id = some item := by
    have := db_getItem p hpm
    rwa [hval] at this
  simp [tsCalcLine, entryAmount, hit, hq, hint, hget]

lemma foldlM_calcLine (fs : List (List String)) (es : List Entry) (acc : ℚ)
    (hp : fs.mapM parseFields = some es)
    (hd : ∀ e ∈ es, (dbFind e.idKey).isSome = true) :
    fs.foldlM calcLine acc = some (es.foldl (fun sum e => sum + entryAmount e) acc) := by
  rw [← List.mapM'_eq_mapM] at hp
  induction fs generalizing es acc with
  | nil =>
    simp only [List.mapM', Option.pure_def, Option.some.injEq] at hp
    subst hp
    rfl
  | cons f t ih =>
    cases hpf : parseFields f with
    | none => simp [List.mapM', hpf] at hp
    | some e =>
      cases hrt : t.mapM' parseFields with
      | none => simp [List.mapM', hpf, hrt] at hp
      | some rest =>
        simp only [List.mapM', hpf, hrt, Option.pure_def, Option.bind_eq_bind,
          Option.some_bind, Option.some.injEq] at hp
        subst hp
        have h1 := calcLine_eq acc hpf (hd e (by simp))
        rw [List.foldlM_cons, h1]
        simpa using ih rest (acc + entryAmount e) hrt (fun e' h' => hd e' (by simp [h']))

lemma foldlM_tsCalcLine (fs : List (List String)) (es : List Entry) (acc : ℚ)
    (hp : fs.mapM parseFields = some es)
    (hd : ∀ e ∈ es, (dbFind e.idKey).isSome = true) :
    fs.foldlM tsCalcLine acc = some (es.foldl (fun sum e => sum + entryAmount e) acc) := by
  rw [← List.mapM'_eq_mapM] at hp
  induction fs generalizing es acc with
  | nil =>
    simp only [List.mapM', Option.pure_def, Option.some.injEq] at hp
    subst hp
    rfl
  | cons f t ih =>
    cases hpf : parseFields f with
    | none => simp [List.mapM', hpf] at hp
    | some e =>
      cases hrt : t.mapM' parseFields with
      | none => simp [List.mapM', hpf, hrt] at hp
      | some rest =>
        simp only [List.mapM', hpf, hrt, Option.pure_def, Option.bind_eq_bind,
          Option.some_bind, Option.some.injEq] at hp
        subst hp
        have h1 := tsCalcLine_eq acc hpf (hd e (by simp))
        rw [List.foldlM_cons, h1]
        simpa using ih rest (acc + entryAmount e) hrt (fun e' h' => hd e' (by simp [h']))

lemma handleCalculate_eq (s : String) (es : List Entry)
    (hp : parseCalc s = some es)
    (hd : ∀ e ∈ es, (dbFind e.idKey).isSome = true) :
    handleCalculate s = some (preciseRound (specTotal es)) := by
  unfold parseCalc at hp
  simp only [handleCalculate]
  rw [foldlM_calcLine _ es 0 hp hd]
  rfl

lemma tsCalculate_eq (s : String) (es : List Entry)
    (hp : parseCalc s = some es)
    (hd : ∀ e ∈ es, (dbFind e.idKey).isSome = true) :
    tsCalculate s = some (preciseRound (specTotal es)) := by
  unfold parseCalc at hp
  simp only [tsCalculate]
  rw [foldlM_tsCalcLine _ es 0 hp hd]
  rfl

/-- C2.  For every calculate payload that parses as entries `es` whose
units are in `{kg, g}` and whose item ids are all present in the catalog,
`handleCalculate` returns `preciseRound` of the sum, accumulated over the
entries in input order, of
`normalizePrice(item.unitPrice, item.unit) * normalizeWeight(quantity, entry.unit)`. -/
theorem handleCalculate_spec (s : String) (es : List Entry)
    (hp : parseCalc s = some es)
    (hunit : ∀ e ∈ es, e.unit = "kg" ∨ e.unit = "g")
    (hid : ∀ e ∈ es, (dbFind e.idKey).isSome = true) :
    handleCalculate s = some (preciseRound (specTotal es)) :=
  handleCalculate_eq s es hp hid

set_option maxRecDepth 40000 in
/-- Witness for C2 at the payload `"1,2,kg"`. -/
theorem handleCalculate_spec_witness :
    handleCalculate ("1,2,kg") = some (preciseRound (specTotal [⟨"1", 2, "kg"⟩])) :=
  handleCalculate_spec ("1,2,kg") [⟨"1", 2, "kg"⟩]
    (by with_unfolding_all decide) (by decide) (by with_unfolding_all decide)

/-- C6.  For every query payload whose ids are all present in the catalog,
`handleQuery` returns one row per input id, in input order (so the output
has the length of the input and duplicates produce duplicates), and the
k-th row is `{itemId: item.id, kgPrice: normalizePrice(item.unitPrice, item.unit)}`
for the item looked up from the k-th input id (`queryEntryOf`). -/
theorem handleQuery_spec (s : String)
    (h : ∀ id ∈ jsSplit ',' s, (dbFind id).isSome = true) :
    handleQuery s = some ((jsSplit ',' s).map queryEntryOf) := by
  unfold handleQuery
  exact mapM_queryLine _ h

set_option maxRecDepth 40000 in
/-- Witness for C6 at the payload `"1,2"`. -/
theorem handleQuery_spec_witness :
    handleQuery ("1,2") = some ((jsSplit ',' ("1,2")).map queryEntryOf) :=
  handleQuery_spec ("1,2") (by with_unfolding_all decide)

/-- C8.  On every envelope whose payload is well-formed for its action and
refers only to catalog ids, the Map-based TS variant (`tsProcess`) and the
plain-object JS variant (`summaryApi`) return equal results; unrecognized
actions agree unconditionally. -/
theorem ts_js_equiv (env : Envelope)
    (hc : env.action = "calculate" → wfCalc env.datas = true)
    (hq : env.action = "query" → wfQuery env.datas = true) :
    tsProcess env = summaryApi env := by
  obtain ⟨a, d⟩ := env
  by_cases h1 : a = "calculate"
  · subst h1
    have hw := hc rfl
    unfold wfCalc at hw
    cases hps : parseCalc d with
    | none => rw [hps] at hw; simp at hw
    | some es =>
      rw [hps] at hw
      have hd : ∀ e ∈ es, (dbFind e.idKey).isSome = true := by
        simpa [List.all_eq_true] using hw
      show (tsCalculate d).map ApiResult.number = (handleCalculate d).map ApiResult.number
      rw [handleCalculate_eq d es hps hd, tsCalculate_eq d es hps hd]
  · by_cases h2 : a = "query"
    · subst h2
      have hw := hq rfl
      have hd : ∀ id ∈ jsSplit ',' d, (dbFind id).isSome = true := by
        simpa [wfQuery, List.all_eq_true] using hw
      show (tsQuery d).map ApiResult.table = (handleQuery d).map ApiResult.table
      unfold tsQuery handleQuery
      rw [mapM_queryLine _ hd, mapM_tsQueryLine _ hd]
    · rw [summaryApi_other d h1 h2, tsProcess_other d h1 h2]

set_option maxRecDepth 40000 in
/-- Witness for C8 at a well-formed calculate envelope. -/
theorem ts_js_equiv_witness :
    tsProcess ⟨"calculate", "1,2,kg"⟩ = summaryApi ⟨"calculate", "1,2,kg"⟩ :=
  ts_js_equiv ⟨"calculate", "1,2,kg"⟩
    (fun _ => by with_unfolding_all decide) (fun h => absurd h (by decide))

set_option maxRecDepth 400000 in
/-- C3.  With the seeded catalog, the two test-harness vectors evaluate
exactly as recorded: `"1,1,kg;2,2,kg;3,0.15,kg;4,4,kg"` totals 374.65 and
`"9,10,kg;12,1,kg;16,400,g"` totals 805.65. -/
theorem calculate_test_vectors :
    handleCalculate ("1,1,kg;2,2,kg;3,0.15,kg;4,4,kg") = some (374.65 : ℚ) ∧
    handleCalculate ("9,10,kg;12,1,kg;16,400,g") = some (805.65 : ℚ) := by
  constructor
  · have h := handleCalculate_eq ("1,1,kg;2,2,kg;3,0.15,kg;4,4,kg")
      [⟨"1", 1, "kg"⟩, ⟨"2", 2, "kg"⟩, ⟨"3", 3/20, "kg"⟩, ⟨"4", 4, "kg"⟩]
      (by with_unfolding_all decide) (by with_unfolding_all decide)
    rw [h]
    have hf1 : dbFind ("1") = some ⟨1, "item1", 145/100, "kg"⟩ := by with_unfolding_all decide
    have hf2 : dbFind ("2") = some ⟨2, "item2", 123/100, "kg"⟩ := by with_unfolding_all decide
    have hf3 : dbFind ("3") = some ⟨3, "item3", 235/100, "g"⟩ := by with_unfolding_all decide
    have hf4 : dbFind ("4") = some ⟨4, "item4", 456/100, "kg"⟩ := by with_unfolding_all decide
    have hT : specTotal [⟨"1", 1, "kg"⟩, ⟨"2", 2, "kg"⟩, ⟨"3", 3/20, "kg"⟩, ⟨"4", 4, "kg"⟩]
        = 7493/20 := by
      simp [specTotal, entryAmount, hf1, hf2, hf3, hf4, normalizePrice, normalizeWeight]
      norm_num
    rw [hT]
    have hr : round ((7493/20 : ℚ) * 100) = 37465 := by norm_num [round_eq]
    have ht : Int.tmod (37465 : ℤ) 10 = 5 := by decide
    simp only [preciseRound, hr, ht]
    norm_num
  · have h := handleCalculate_eq ("9,10,kg;12,1,kg;16,400,g")
      [⟨"9", 10, "kg"⟩, ⟨"12", 1, "kg"⟩, ⟨"16", 400, "g"⟩]
      (by with_unfolding_all decide) (by with_unfolding_all decide)
    rw [h]
    have hf9 : dbFind ("9") = some ⟨9, "item9", 91/10, "kg"⟩ := by with_unfolding_all decide
    have hf12 : dbFind ("12") = some ⟨12, "item12", 264/100, "kg"⟩ := by with_unfolding_all decide
    have hf16 : dbFind ("16") = some ⟨16, "item16", 178/100, "g"⟩ := by with_unfolding_all decide
    have hT : specTotal [⟨"9", 10, "kg"⟩, ⟨"12", 1, "kg"⟩, ⟨"16", 400, "g"⟩]
        = 20141/25 := by
      simp [specTotal, entryAmount, hf9, hf12, hf16, normalizePrice, normalizeWeight]
      norm_num
    rw [hT]
    have hr : round ((20141/25 : ℚ) * 100) = 80564 := by norm_num [round_eq]
    have ht : Int.tmod (80564 : ℤ) 10 = 4 := by decide
    simp only [preciseRound, hr, ht]
    norm_num

end Pricing
